import Mathlib

/-
Verification of the tracer-dispatcher supervision engine of
`labw_proc_profiler` (package `pid_monitor`).

The embedding translates the Python sources under `src/src/pid_monitor/`:
  * `dt_mvc/std_dispatcher.py` — `_to_human_readable`, the process and
    system dispatcher threads (`__init__`, `run_body`, `_detect_process`,
    `before_ending`, `_update_cache`);
  * `report.py` — `_MakeIndividualReportThread.run` and `make_all_report`.

Python floats are modelled as exact fractions (`Frac`): an integer
numerator over a positive integer denominator, kept unnormalised so that
every operation is plain integer arithmetic.  All values the claims
evaluate are exactly representable, so rounding of binary floats does not
diverge from this model at any input used here.  CPython's scientific
notation for magnitudes at or above 1e16 is not modelled; the strings
produced below only ever stand for values where CPython uses positional
decimal notation.

Components that live outside the provided sources
(`dispatcher_controller.register_dispatcher` / `remove_dispatcher`,
`BaseTracerDispatcherThread.sigterm`, `parallel_helper.ParallelJobQueue`)
are modelled from the specification, and are marked as such in their doc
comments.
-/

/-- Exact fraction model of a Python float: `num / den` with `0 < den`.
Representations are not normalised; ordering and arithmetic are by
cross multiplication. -/
structure Frac where
  num : ℤ
  den : ℤ
  den_pos : 0 < den

/-- Embed an integer (Python `int` promoted to `float`) as a fraction. -/
def Frac.ofInt (n : ℤ) : Frac := ⟨n, 1, one_pos⟩

/-- The float value `0.0`, the initial `_cached_last_cpu_time`. -/
def frac0 : Frac := Frac.ofInt 0

/-- Value order on fractions, by cross multiplication with positive
denominators. -/
def Frac.le (a b : Frac) : Prop := a.num * b.den ≤ b.num * a.den

/-- Strict value order on fractions. -/
def Frac.lt (a b : Frac) : Prop := a.num * b.den < b.num * a.den

instance : DecidableRel Frac.le := fun a b =>
  inferInstanceAs (Decidable (a.num * b.den ≤ b.num * a.den))

instance : DecidableRel Frac.lt := fun a b =>
  inferInstanceAs (Decidable (a.num * b.den < b.num * a.den))

/-- Python `max` on two floats: returns the second argument when the
first is less than or equal to it, mirroring that `max(a, b)` returns
`b` when `a <= b`. -/
def Frac.max (a b : Frac) : Frac := if Frac.le a b then b else a

/-- Float addition. -/
def Frac.add (a b : Frac) : Frac :=
  ⟨a.num * b.den + b.num * a.den, a.den * b.den, mul_pos a.den_pos b.den_pos⟩

/-- Float multiplication. -/
def Frac.mul (a b : Frac) : Frac :=
  ⟨a.num * b.num, a.den * b.den, mul_pos a.den_pos b.den_pos⟩

/-- Float division.  Every division performed by the embedded code has a
positive divisor (the scaling base `1024`/`1000`, a non-zero total, a
non-empty length), so the guard always holds at call sites; the
else branch is unreachable there. -/
def Frac.div (a b : Frac) : Frac :=
  if h : 0 < a.den * b.num then ⟨a.num * b.den, a.den * b.num, h⟩ else a

/-- Decimal digit character, as produced by CPython's integer
formatting. -/
def digChar (d : ℕ) : Char := ['0', '1', '2', '3', '4', '5', '6', '7', '8', '9'].getD d '*'

/-- Decimal digits of a natural number, most significant first.  The
first argument is fuel; `n + 1` units always suffice for `n`. -/
def natDigitsAux : ℕ → ℕ → List Char
  | 0, _ => []
  | fuel + 1, n =>
      if n < 10 then [digChar n]
      else natDigitsAux fuel (n / 10) ++ [digChar (n % 10)]

/-- CPython `str` of a non-negative `int`. -/
def natToDecStr (n : ℕ) : String := String.mk (natDigitsAux (n + 1) n)

/-- CPython `str` of an `int`. -/
def intToDecStr (i : ℤ) : String :=
  if i < 0 then "-" ++ natToDecStr (-i).toNat else natToDecStr i.toNat

/-- Fractional part of CPython's `str` of a float whose value is
`k + frac / 100` with `0 ≤ frac < 100`: trailing zeros are stripped but
at least one digit is kept. -/
def fracStr (frac : ℕ) : String :=
  if frac % 10 = 0 then natToDecStr (frac / 10)
  else if frac < 10 then "0" ++ natToDecStr frac
  else natToDecStr frac

/-- CPython `str` of a float whose exact value is `n / 100`. -/
def centsToStr (n : ℤ) : String :=
  intToDecStr (n / 100) ++ "." ++ fracStr (n % 100).toNat

/-- Python `round(q, 2)` on an exact fraction, returned as an integer
number of hundredths: round half to even, computed on `q * 100` through
its floor and doubled remainder. -/
def roundHalfEvenCents (q : Frac) : ℤ :=
  let t := q.num * 100
  let f := t / q.den
  let r2 := 2 * (t - f * q.den)
  if r2 < q.den then f
  else if q.den < r2 then f + 1
  else if f % 2 = 0 then f else f + 1

/-- CPython `str(round(q, 2))` for a float `q`. -/
def fmtRound2 (q : Frac) : String := centsToStr (roundHalfEvenCents q)

/-- Least `k` (up to the fuel) such that `num * 10 ^ k` is divisible by
`den`; the number of fractional decimal digits CPython prints. -/
def decScaleAux : ℕ → ℤ → ℤ → ℕ
  | 0, _, _ => 0
  | fuel + 1, num, den =>
      if num % den = 0 then 0 else 1 + decScaleAux fuel (num * 10) den

/-- Exactly `k` decimal digits of `m`, most significant first, with
leading zeros. -/
def natPadDigits : ℕ → ℕ → List Char
  | 0, _ => []
  | k + 1, m => natPadDigits k (m / 10) ++ [digChar (m % 10)]

/-- CPython `str` of a non-negative float given as an exact decadic
fraction: shortest decimal expansion, with at least one digit after the
point. -/
def pyFloatStrNN (q : Frac) : String :=
  let k := decScaleAux 30 q.num q.den
  let m := (q.num * (10 : ℤ) ^ k / q.den).toNat
  if k = 0 then natToDecStr m ++ ".0"
  else natToDecStr (m / 10 ^ k) ++ "." ++ String.mk (natPadDigits k (m % 10 ^ k))

/-- CPython `str` of a float given as an exact decadic fraction. -/
def pyFloatStr (q : Frac) : String :=
  if q.num < 0 then "-" ++ pyFloatStrNN ⟨-q.num, q.den, q.den_pos⟩ else pyFloatStrNN q

/-- Unit suffixes for base 1024, `std_dispatcher.py` line 26. -/
def dcList1024 : List String := ["B", "KiB", "MiB", "GiB", "TiB", "PiB", "EiB"]

/-- Unit suffixes for base 1000, `std_dispatcher.py` line 28. -/
def dcList1000 : List String := ["B", "KB", "MB", "GB", "TB", "PB", "EB"]

/-- The `while num > base and step < len(dc_list) - 1` loop of
`_to_human_readable` (`std_dispatcher.py` lines 33-36): repeatedly
divide by the base, counting steps.  `len(dc_list) - 1 = 6` bounds the
iteration count, so the fuel of 7 is never exhausted. -/
def hrLoopAux : ℕ → Frac → Frac → ℕ → Frac × ℕ
  | 0, _, num, step => (num, step)
  | fuel + 1, base, num, step =>
      if Frac.lt base num ∧ step < 6 then hrLoopAux fuel base (num.div base) (step + 1)
      else (num, step)

/-- Body of `_to_human_readable` after the base check
(`std_dispatcher.py` lines 31-38).  When the loop never ran, `num` is
still a Python `int` and `round(num, 2)` is the identity, so `str`
prints it without a decimal point; otherwise `num` is a float and
`str(round(num, 2))` prints up to two decimals. -/
def hrBody (num : ℕ) (base : ℕ) (dcList : List String) : String :=
  let p := hrLoopAux 7 (Frac.ofInt base) (Frac.ofInt num) 0
  let dc := dcList.getD p.2 "B"
  if p.2 = 0 then natToDecStr num ++ dc else fmtRound2 p.1 ++ dc

/-- The full `_to_human_readable(num, base)` (`std_dispatcher.py` lines
21-38), including the `ValueError` for a base other than 1000 or
1024. -/
def toHumanReadable (num : ℕ) (base : ℕ) : Except String String :=
  if base = 1024 then Except.ok (hrBody num base dcList1024)
  else if base = 1000 then Except.ok (hrBody num base dcList1000)
  else Except.error "base should be 1000 or 1024"

/-- Sum of a list of floats (the reduction inside `statistics.mean`). -/
def fracSum (l : List Frac) : Frac := l.foldl Frac.add frac0

/-- The `statistics.mean` of a list of floats.  `statistics.mean` raises
on an empty list; all call sites pass the non-empty per-core list, so
the guard inside `Frac.div` always holds there. -/
def fracMean (l : List Frac) : Frac := (fracSum l).div (Frac.ofInt l.length)

/-- The `_frontend_cache` dict of `SystemTracerDispatcherThread`
(`std_dispatcher.py` lines 259-270): fixed keys, string values. -/
structure SysCache where
  cpuPercent : String
  vmAvail : String
  vmTotal : String
  vmPercent : String
  buffered : String
  shared : String
  swapAvail : String
  swapTotal : String
  swapPercent : String

/-- `SystemTracerDispatcherThread._setup_cache` (`std_dispatcher.py`
lines 259-270). -/
def systemSetupCache : SysCache :=
  ⟨"NA", "NA", "NA", "NA", "NA", "NA", "NA", "NA", "NA"⟩

/-- `SystemTracerDispatcherThread._update_cache` (`std_dispatcher.py`
lines 322-341).  `memInfo` is the cached `(available, total, buffered,
shared)` tuple, `swapInfo` the cached `(available, total)` tuple, and
`cpuPercents` the per-core percentages; `_to_human_readable` is called
with its default base 1024, for which the base check always passes. -/
def systemUpdateCache (c : SysCache) (cpuPercents : List Frac)
    (memInfo : ℕ × ℕ × ℕ × ℕ) (swapInfo : ℕ × ℕ) : SysCache :=
  { c with
    cpuPercent := fmtRound2 (fracMean cpuPercents) ++ "%",
    vmAvail := hrBody memInfo.1 1024 dcList1024,
    vmTotal := hrBody memInfo.2.1 1024 dcList1024,
    vmPercent :=
      if memInfo.2.1 ≠ 0 then
        fmtRound2 (((Frac.ofInt memInfo.1).div (Frac.ofInt memInfo.2.1)).mul (Frac.ofInt 100)) ++ "%"
      else "0.00%",
    buffered := hrBody memInfo.2.2.1 1024 dcList1024,
    shared := hrBody memInfo.2.2.2 1024 dcList1024,
    swapAvail := hrBody swapInfo.1 1024 dcList1024,
    swapTotal := hrBody swapInfo.2 1024 dcList1024,
    swapPercent :=
      if swapInfo.2 ≠ 0 then
        fmtRound2 (((Frac.ofInt swapInfo.1).div (Frac.ofInt swapInfo.2)).mul (Frac.ofInt 100)) ++ "%"
      else "0.00%" }

/-- The `_frontend_cache` dict of `ProcessTracerDispatcherThread`
(`std_dispatcher.py` lines 205-215): fixed keys, string values. -/
structure ProcCache where
  pid : String
  ppid : String
  name : String
  cpuPercent : String
  stat : String
  cpuTime : String
  residentMem : String
  numThreads : String
  numChildProcess : String

/-- The mutable per-dispatcher state touched by
`ProcessTracerDispatcherThread._update_cache`: the monotone
`_cached_last_cpu_time` and the frontend cache. -/
structure ProcDispatchCache where
  cachedLastCpuTime : Frac
  cache : ProcCache

/-- `ProcessTracerDispatcherThread._setup_cache` on the success path
(`std_dispatcher.py` lines 200-221): `_cached_last_cpu_time = 0` and the
initial dict, with NAME and PPID then filled in. -/
def processSetupCache (tracePid : ℕ) (name : String) (ppid : ℕ) : ProcDispatchCache :=
  { cachedLastCpuTime := frac0,
    cache :=
      { pid := natToDecStr tracePid,
        ppid := natToDecStr ppid,
        name := name,
        cpuPercent := "NA",
        stat := "NA",
        cpuTime := natToDecStr 0,
        residentMem := "NA",
        numThreads := "NA",
        numChildProcess := "NA" } }

/-- The `_cached_last_cpu_time = max(_cached_last_cpu_time,
get_total_cpu_time(process))` update (`std_dispatcher.py` lines
224-227). -/
def updateCpuTimeCache (cached reading : Frac) : Frac := Frac.max cached reading

/-- The cached CPU time after folding the update of `_update_cache` over
a sequence of raw readings, starting from `init`. -/
def cachedCpuTimeFrom (init : Frac) (readings : List Frac) : Frac :=
  readings.foldl updateCpuTimeCache init

/-- The cached CPU time after a sequence of raw readings, starting from
the initial value 0 set by `_setup_cache`. -/
def cachedCpuTimeAfter (readings : List Frac) : Frac := cachedCpuTimeFrom frac0 readings

/-- `ProcessTracerDispatcherThread._update_cache` (`std_dispatcher.py`
lines 223-246).  `totalCpuTimeReading` is the value of
`get_total_cpu_time(self.process)`; the remaining arguments are the
sibling pollers' cached values pulled from the thread pool. -/
def processUpdateCache (s : ProcDispatchCache) (totalCpuTimeReading : Frac)
    (cachedCpuPercent : Frac) (cachedResidentMem : ℕ) (threadChildNum : ℕ × ℕ)
    (cachedStat : String) : ProcDispatchCache :=
  let cached2 := updateCpuTimeCache s.cachedLastCpuTime totalCpuTimeReading
  { cachedLastCpuTime := cached2,
    cache :=
      { s.cache with
        cpuTime := fmtRound2 cached2,
        cpuPercent := pyFloatStr cachedCpuPercent,
        residentMem := hrBody cachedResidentMem 1024 dcList1024,
        numThreads := natToDecStr threadChildNum.1,
        numChildProcess := natToDecStr threadChildNum.2,
        stat := cachedStat } }

/-- `ProcessTracerDispatcherThread.__init__` (`std_dispatcher.py` lines
56-96) at the registry level.  `register_dispatcher(trace_pid, self)` is
called first (line 68, modelled from the spec: register adds the id to
the Entity Registry); only afterwards does `psutil.Process(trace_pid)`
check that the entity still exists (line 83).  `alive` is that check's
outcome: when the entity is gone, `PSUTIL_NOTFOUND_ERRORS` is re-raised
(line 87) with no unregistration, so the result is the registry after
the call paired with whether construction succeeded. -/
def processDispatcherInit (registry : Finset ℕ) (tracePid : ℕ) (alive : Bool) :
    Finset ℕ × Bool :=
  let registry2 := insert tracePid registry
  if alive then (registry2, true) else (registry2, false)

/-- Registry-level events: a `CHILD_SCAN` encounter of a child process
(`alive` tells whether it still exists when the child dispatcher's
constructor runs its existence check), and the termination of the
running dispatcher of an entity. -/
inductive DispatchEvent
  | spawnChild (pid : ℕ) (alive : Bool)
  | terminate (pid : ℕ)

/-- Process-wide registry state: the set of registered entity ids
(`dispatcher_controller`, modelled from the spec) together with the
number of live dispatchers per entity id. -/
structure RegistryState where
  registered : Finset ℕ
  liveCount : ℕ → ℕ

/-- One registry-level step.  A spawn for an id already registered is
skipped by the `if process.pid not in get_current_active_pids()` guard
of `_detect_process` (`std_dispatcher.py` line 181); otherwise the child
dispatcher's constructor runs (registering first, then checking
existence) and `new_thread.start()` launches the dispatcher only when
construction succeeded (lines 183-184).  A terminate of a running
dispatcher runs `before_ending`, which removes the id from the registry
(line 198, `remove_dispatcher` modelled from the spec). -/
def dispatchStep (s : RegistryState) : DispatchEvent → RegistryState
  | DispatchEvent.spawnChild pid alive =>
      if pid ∈ s.registered then s
      else
        let p := processDispatcherInit s.registered pid alive
        { registered := p.1,
          liveCount := if p.2 then fun q => if q = pid then s.liveCount q + 1 else s.liveCount q
            else s.liveCount }
  | DispatchEvent.terminate pid =>
      if s.liveCount pid = 0 then s
      else
        { registered := s.registered.erase pid,
          liveCount := fun q => if q = pid then s.liveCount q - 1 else s.liveCount q }

/-- Run a sequence of registry-level events from the empty registry. -/
def dispatchRun (events : List DispatchEvent) : RegistryState :=
  events.foldl dispatchStep ⟨∅, fun _ => 0⟩

/-- Registry invariant: at most one live dispatcher per id, and a live
dispatcher's id is registered. -/
def regInv (s : RegistryState) : Prop :=
  ∀ p, s.liveCount p ≤ 1 ∧ (1 ≤ s.liveCount p → p ∈ s.registered)

/-- `ProcessTracerDispatcherThread._detect_process` (`std_dispatcher.py`
lines 175-188) over an enumerated list of children, each paired with
whether it still exists when its dispatcher's constructor runs.  A child
already registered is skipped; otherwise the constructor registers the
child and checks existence: on failure the raised
`PSUTIL_NOTFOUND_ERRORS` is logged, re-raised (line 188) and unwinds the
loop, so the remaining children are not visited.  The payload is the
registry and the ids whose dispatchers were started. -/
def detectProcessGo (reg : Finset ℕ) (spawned : List ℕ) :
    List (ℕ × Bool) → Except (Finset ℕ × List ℕ) (Finset ℕ × List ℕ)
  | [] => Except.ok (reg, spawned)
  | (cpid, alive) :: rest =>
      if cpid ∈ reg then detectProcessGo reg spawned rest
      else
        let p := processDispatcherInit reg cpid alive
        if p.2 then detectProcessGo p.1 (spawned ++ [cpid]) rest
        else Except.error (p.1, spawned)

/-- `_detect_process` starting with no children spawned in this pass. -/
def detectProcess (reg : Finset ℕ) (children : List (ℕ × Bool)) :
    Except (Finset ℕ × List ℕ) (Finset ℕ × List ℕ) :=
  detectProcessGo reg [] children

/-- One `run_body` cycle's external observations: the raw
`get_total_cpu_time` reading consumed by `_update_cache`, the children
enumerated by `_detect_process` (paired with their liveness at dispatch
construction time), and whether `self.process.children()` itself raised
the entity-gone condition. -/
structure PollCycle where
  reading : Frac
  children : List (ℕ × Bool)
  parentGone : Bool

/-- State of one process dispatcher's `run_body`, plus the registry it
shares: the monotone cached CPU time, the registry, the child ids this
dispatcher started, and the `.cputime` file (written at teardown). -/
structure DispatchPState where
  cachedLastCpuTime : Frac
  registered : Finset ℕ
  spawned : List ℕ
  cputimeFile : Option Frac

/-- The `_detect_process` call of one cycle, under `_DISPATCHER_MUTEX`
(`std_dispatcher.py` lines 109-110): an error means
`PSUTIL_NOTFOUND_ERRORS` reached `run_body`. -/
def detectStep (s : DispatchPState) (cy : PollCycle) :
    Except DispatchPState DispatchPState :=
  if cy.parentGone then Except.error s
  else
    match detectProcessGo s.registered s.spawned cy.children with
    | Except.ok p => Except.ok { s with registered := p.1, spawned := p.2 }
    | Except.error p => Except.error { s with registered := p.1, spawned := p.2 }

/-- `sigterm` → `before_ending` (`std_dispatcher.py` lines 190-198;
`sigterm` of the base class is modelled from the spec: stop the poller
pool, then call `before_ending`): write `_cached_last_cpu_time` to the
`.cputime` file, then remove this dispatcher from the registry. -/
def runTeardown (tracePid : ℕ) (s : DispatchPState) : DispatchPState :=
  { s with
    cputimeFile := some s.cachedLastCpuTime,
    registered := s.registered.erase tracePid }

/-- `ProcessTracerDispatcherThread.run_body` (`std_dispatcher.py` lines
98-114) over a list of cycles.  An empty list is the `should_exit` flag
being observed; each cycle refreshes the cache (consuming one CPU-time
reading) and then scans children, breaking out of the loop when
`PSUTIL_NOTFOUND_ERRORS` escapes `_detect_process`.  On every exit path
`self.sigterm()` runs the teardown. -/
def runBodyGo (tracePid : ℕ) (s : DispatchPState) : List PollCycle → DispatchPState
  | [] => runTeardown tracePid s
  | cy :: rest =>
      let s1 := { s with cachedLastCpuTime := updateCpuTimeCache s.cachedLastCpuTime cy.reading }
      match detectStep s1 cy with
      | Except.ok s2 => runBodyGo tracePid s2 rest
      | Except.error s2 => runTeardown tracePid s2

/-- Outcome of one report-rendering job, `_MakeIndividualReportThread.run`
(`report.py` lines 33-70): the renderer's exit code is the only signal;
on 0 the log file is removed, otherwise an error is logged and the log
file is retained. -/
structure ReportJobResult where
  pid : ℕ
  exitCode : ℤ
  errorLogged : Bool
  logRetained : Bool
  deriving DecidableEq

/-- `_MakeIndividualReportThread.run` (`report.py` lines 33-70) for the
entity `pid`, given the renderer's exit code. -/
def runIndividualReport (pid : ℕ) (exitCode : ℤ) : ReportJobResult :=
  if exitCode = 0 then ⟨pid, exitCode, false, false⟩
  else ⟨pid, exitCode, true, true⟩

/-- Modelled from the spec: `parallel_helper.ParallelJobQueue` (not in
the provided sources) runs every appended job with bounded concurrency,
tolerating individual failures, and its `join` returns only once every
submitted job has completed — hence one result per submitted job. -/
def parallelJobQueueJoin (jobs : Multiset ℕ) (runJob : ℕ → ReportJobResult) :
    Multiset ReportJobResult := jobs.map runJob

/-- `make_all_report` (`report.py` lines 73-83): add the system sentinel
id 0 to `all_pids` in place, append one report job per pid, start the
queue and join it.  Returns the mutated pid set and the completed job
results; Python iterates the set in an unspecified duplicate-free order,
so the jobs form the multiset of the set's elements. -/
def makeAllReport (allPids : Finset ℕ) (exitCodes : ℕ → ℤ) :
    Finset ℕ × Multiset ReportJobResult :=
  let pids := insert 0 allPids
  (pids, parallelJobQueueJoin pids.val (fun p => runIndividualReport p (exitCodes p)))

theorem Frac.le_refl (a : Frac) : Frac.le a a := le_rfl

theorem Frac.le_trans {a b c : Frac} (h1 : Frac.le a b) (h2 : Frac.le b c) :
    Frac.le a c := by
  have hb := b.den_pos
  have h1c := mul_le_mul_of_nonneg_right h1 (le_of_lt c.den_pos)
  have h2a := mul_le_mul_of_nonneg_right h2 (le_of_lt a.den_pos)
  have key : a.num * c.den * b.den ≤ c.num * a.den * b.den := by nlinarith
  exact le_of_mul_le_mul_right key hb

theorem Frac.le_total_pair (a b : Frac) : Frac.le a b ∨ Frac.le b a :=
  Int.le_total (a.num * b.den) (b.num * a.den)

theorem Frac.le_max_left (a b : Frac) : Frac.le a (Frac.max a b) := by
  unfold Frac.max
  split
  · assumption
  · exact Frac.le_refl a

theorem Frac.le_max_right (a b : Frac) : Frac.le b (Frac.max a b) := by
  unfold Frac.max
  split
  · exact Frac.le_refl b
  · rcases Frac.le_total_pair a b with h | h
    · contradiction
    · exact h

theorem Frac.max_le {a b c : Frac} (h1 : Frac.le a c) (h2 : Frac.le b c) :
    Frac.le (Frac.max a b) c := by
  unfold Frac.max
  split
  · exact h2
  · exact h1

theorem le_cachedCpuTimeFrom_init (init : Frac) (l : List Frac) :
    Frac.le init (cachedCpuTimeFrom init l) := by
  induction l generalizing init with
  | nil => exact Frac.le_refl init
  | cons a l ih =>
      exact Frac.le_trans (Frac.le_max_left init a) (ih (Frac.max init a))

theorem le_cachedCpuTimeFrom_of_mem {r : Frac} {l : List Frac} (init : Frac)
    (hr : r ∈ l) : Frac.le r (cachedCpuTimeFrom init l) := by
  induction l generalizing init with
  | nil => cases hr
  | cons a l ih =>
      rcases List.mem_cons.mp hr with rfl | hr2
      · exact Frac.le_trans (Frac.le_max_right init r)
          (le_cachedCpuTimeFrom_init (Frac.max init r) l)
      · exact ih (Frac.max init a) hr2

theorem cachedCpuTimeFrom_eq_init_or_mem (init : Frac) (l : List Frac) :
    cachedCpuTimeFrom init l = init ∨ cachedCpuTimeFrom init l ∈ l := by
  induction l generalizing init with
  | nil => exact Or.inl rfl
  | cons a l ih =>
      have step : cachedCpuTimeFrom init (a :: l) = cachedCpuTimeFrom (Frac.max init a) l := rfl
      rcases ih (Frac.max init a) with h | h
      · rw [step, h]
        unfold Frac.max
        split
        · exact Or.inr (List.mem_cons_self a l)
        · exact Or.inl rfl
      · rw [step]
        exact Or.inr (List.mem_cons_of_mem a h)

theorem cachedCpuTimeFrom_mono_init {i1 i2 : Frac} (h : Frac.le i1 i2)
    (l : List Frac) : Frac.le (cachedCpuTimeFrom i1 l) (cachedCpuTimeFrom i2 l) := by
  induction l generalizing i1 i2 with
  | nil => exact h
  | cons a l ih =>
      refine ih ?_
      exact Frac.max_le (Frac.le_trans h (Frac.le_max_left i2 a)) (Frac.le_max_right i2 a)

theorem cachedCpuTimeFrom_append (init : Frac) (l1 l2 : List Frac) :
    cachedCpuTimeFrom init (l1 ++ l2) = cachedCpuTimeFrom (cachedCpuTimeFrom init l1) l2 :=
  List.foldl_append _ _ _ _

theorem cachedCpuTimeFrom_prefix_le (init : Frac) (l : List Frac) (i j : ℕ)
    (hij : i ≤ j) :
    Frac.le (cachedCpuTimeFrom init (l.take i)) (cachedCpuTimeFrom init (l.take j)) := by
  have hsplit : l.take j = l.take i ++ (l.drop i).take (j - i) := by
    have h2 := List.take_add l i (j - i)
    rwa [Nat.add_sub_cancel' hij] at h2
  rw [hsplit, cachedCpuTimeFrom_append]
  exact le_cachedCpuTimeFrom_init _ _

/-- C5: for every sequence of raw CPU-time readings, the cached
cumulative CPU time after each update cycle is the running maximum of
the readings so far (it bounds every reading seen and is itself one of
them), is monotonically non-decreasing from cycle to cycle even when a
reading drops, and the value written at teardown — the final cached
value — is at least every earlier cached value. -/
theorem cpu_time_cache_is_running_max (readings : List Frac)
    (h : ∀ r ∈ readings, Frac.le frac0 r) :
    (∀ n, (∀ r ∈ readings.take n, Frac.le r (cachedCpuTimeAfter (readings.take n)))
       ∧ (readings.take n ≠ [] → cachedCpuTimeAfter (readings.take n) ∈ readings.take n))
    ∧ (∀ i j, i ≤ j →
        Frac.le (cachedCpuTimeAfter (readings.take i)) (cachedCpuTimeAfter (readings.take j)))
    ∧ (∀ i, Frac.le (cachedCpuTimeAfter (readings.take i)) (cachedCpuTimeAfter readings)) := by
  refine ⟨?_, ?_, ?_⟩
  · intro n
    constructor
    · intro r hr
      exact le_cachedCpuTimeFrom_of_mem frac0 hr
    · intro hne
      cases htake : readings.take n with
      | nil => exact absurd htake hne
      | cons a t =>
          have ha : a ∈ readings := by
            refine List.take_subset n readings ?_
            rw [htake]
            exact List.mem_cons_self a t
          have hupd : updateCpuTimeCache frac0 a = a := by
            unfold updateCpuTimeCache Frac.max
            exact if_pos (h a ha)
          have hstep : cachedCpuTimeAfter (a :: t) = cachedCpuTimeFrom a t := by
            unfold cachedCpuTimeAfter cachedCpuTimeFrom
            rw [List.foldl_cons, hupd]
          rw [hstep]
          rcases cachedCpuTimeFrom_eq_init_or_mem a t with heq | hmem
          · rw [heq]
            exact List.mem_cons_self a t
          · exact List.mem_cons_of_mem a hmem
  · intro i j hij
    exact cachedCpuTimeFrom_prefix_le frac0 readings i j hij
  · intro i
    have hall : cachedCpuTimeAfter readings
        = cachedCpuTimeFrom (cachedCpuTimeAfter (readings.take i)) (readings.drop i) := by
      unfold cachedCpuTimeAfter
      rw [← cachedCpuTimeFrom_append, List.take_append_drop]
    rw [hall]
    exact le_cachedCpuTimeFrom_init _ _

/-- Witness for `cpu_time_cache_is_running_max` at the reading sequence
2, 1, 3: the non-negativity hypothesis holds, and the cached value after
two cycles is bounded by the value written at teardown. -/
theorem cpu_time_cache_is_running_max_witness :
    (∀ r ∈ [Frac.ofInt 2, Frac.ofInt 1, Frac.ofInt 3], Frac.le frac0 r)
    ∧ Frac.le (cachedCpuTimeAfter ([Frac.ofInt 2, Frac.ofInt 1, Frac.ofInt 3].take 2))
        (cachedCpuTimeAfter [Frac.ofInt 2, Frac.ofInt 1, Frac.ofInt 3]) :=
  ⟨by decide,
    (cpu_time_cache_is_running_max [Frac.ofInt 2, Frac.ofInt 1, Frac.ofInt 3] (by decide)).2.2 2⟩

theorem digChar_ne_dot (d : ℕ) : digChar d ≠ '.' := by
  by_cases h : d < 10
  · interval_cases d <;> decide
  · unfold digChar
    rw [List.getD_eq_default]
    · decide
    · simpa using Nat.le_of_not_lt h

theorem natDigitsAux_no_dot (fuel : ℕ) : ∀ n, ('.') ∉ natDigitsAux fuel n := by
  induction fuel with
  | zero => intro n; simp [natDigitsAux]
  | succ f ih =>
      intro n
      unfold natDigitsAux
      split
      · intro hmem
        exact digChar_ne_dot n (List.mem_singleton.mp hmem).symm
      · intro hmem
        rcases List.mem_append.mp hmem with hm | hm
        · exact ih _ hm
        · exact digChar_ne_dot _ (List.mem_singleton.mp hm).symm

theorem natDigitsAux_ne_nil (n : ℕ) : natDigitsAux (n + 1) n ≠ [] := by
  unfold natDigitsAux
  split <;> simp

theorem dot_split (l r : List Char) (hnd : ('.') ∉ l) (hne : l ≠ [])
    (h : l ++ '.' :: r = ['0', '.', '0', '0', '%']) : r = ['0', '0', '%'] := by
  cases l with
  | nil => exact absurd rfl hne
  | cons c l2 =>
      cases l2 with
      | nil =>
          simp only [List.cons_append, List.nil_append, List.cons.injEq] at h
          exact h.2.2
      | cons c2 t =>
          simp only [List.cons_append, List.cons.injEq] at h
          exact absurd (by simp [h.2.1]) hnd

theorem fracStr_data_ne : ∀ f < 100, (fracStr f).data ≠ ['0', '0'] := by decide

theorem roundHalfEvenCents_nonneg (q : Frac) (h : 0 ≤ q.num) :
    0 ≤ roundHalfEvenCents q := by
  have hf : 0 ≤ q.num * 100 / q.den :=
    Int.ediv_nonneg (by positivity) (le_of_lt q.den_pos)
  simp only [roundHalfEvenCents]
  split_ifs <;> omega

theorem fmtRound2_pct_ne_zero (q : Frac) (h : 0 ≤ q.num) :
    fmtRound2 q ++ "%" ≠ "0.00%" := by
  intro heq
  have hn : 0 ≤ roundHalfEvenCents q := roundHalfEvenCents_nonneg q h
  have hip : ¬ roundHalfEvenCents q / 100 < 0 :=
    not_lt.mpr (Int.ediv_nonneg hn (by norm_num))
  have hfrac : (roundHalfEvenCents q % 100).toNat < 100 := by
    have h1 : 0 ≤ roundHalfEvenCents q % 100 := Int.emod_nonneg _ (by norm_num)
    have h2 : roundHalfEvenCents q % 100 < 100 := Int.emod_lt_of_pos _ (by norm_num)
    omega
  have hdata : (fmtRound2 q ++ "%").data = ['0', '.', '0', '0', '%'] := by
    rw [heq]
  unfold fmtRound2 centsToStr intToDecStr natToDecStr at hdata
  rw [if_neg hip] at hdata
  simp only [String.data_append, List.append_assoc, List.singleton_append] at hdata
  have hsplit := dot_split _ _
    (natDigitsAux_no_dot _ ((roundHalfEvenCents q / 100).toNat))
    (natDigitsAux_ne_nil ((roundHalfEvenCents q / 100).toNat)) hdata
  have hcancel : (fracStr (roundHalfEvenCents q % 100).toNat).data = ['0', '0'] := by
    have h3 : (fracStr (roundHalfEvenCents q % 100).toNat).data ++ ['%']
        = ['0', '0'] ++ ['%'] := hsplit
    exact List.append_cancel_right h3
  exact fracStr_data_ne _ hfrac hcancel

theorem pct_num_nonneg (avail total : ℕ) :
    0 ≤ (((Frac.ofInt avail).div (Frac.ofInt total)).mul (Frac.ofInt 100)).num := by
  simp only [Frac.mul, Frac.div, Frac.ofInt]
  split <;> simp

/-- C6: in `SystemTracerDispatcherThread._update_cache`, the used/total
ratios VM_PERCENT and SWAP_PERCENT divide only under the guard that the
total is non-zero, and the cached string is exactly `"0.00%"` precisely
when the total is 0: with a non-zero total the formatted ratio can never
be the string `"0.00%"`, since `str` strips a trailing zero from the
rounded mantissa. -/
theorem percent_zero_iff_total_zero (c : SysCache) (cpuPercents : List Frac)
    (memInfo : ℕ × ℕ × ℕ × ℕ) (swapInfo : ℕ × ℕ) :
    ((systemUpdateCache c cpuPercents memInfo swapInfo).vmPercent = "0.00%" ↔ memInfo.2.1 = 0)
    ∧ ((systemUpdateCache c cpuPercents memInfo swapInfo).swapPercent = "0.00%"
        ↔ swapInfo.2 = 0) := by
  have key : ∀ avail total : ℕ,
      ((if total ≠ 0 then
          fmtRound2 (((Frac.ofInt avail).div (Frac.ofInt total)).mul (Frac.ofInt 100)) ++ "%"
        else "0.00%") = "0.00%" ↔ total = 0) := by
    intro avail total
    by_cases ht : total = 0
    · simp [ht]
    · rw [if_pos ht]
      exact ⟨fun hcontra =>
          absurd hcontra (fmtRound2_pct_ne_zero _ (pct_num_nonneg avail total)),
        fun h0 => absurd h0 ht⟩
  exact ⟨key memInfo.1 memInfo.2.1, key swapInfo.1 swapInfo.2⟩

/-- C2 counterexample: the spec's second byte-scaling vector fails on
the code.  The loop guard is the strict `num > base`, so the input 1024
with base 1024 is never scaled: `_to_human_readable(1024, 1024)` returns
`"1024B"`, which is not `"1.0KiB"`. -/
theorem to_human_readable_1024_counterexample :
    toHumanReadable 1024 1024 = Except.ok "1024B" ∧ "1024B" ≠ "1.0KiB" :=
  ⟨rfl, by decide⟩

/-- C2 amended: the byte-scaling vectors as the code computes them.
`_to_human_readable(0)` is `"0B"` and `_to_human_readable(999, 1000)` is
`"999B"` as claimed; `_to_human_readable(1024, 1024)` is `"1024B"`
because the loop runs only while the value strictly exceeds the base,
and the first scaled input, 1025, gives `"1.0KiB"`. -/
theorem to_human_readable_vectors :
    toHumanReadable 0 1024 = Except.ok "0B"
    ∧ toHumanReadable 1024 1024 = Except.ok "1024B"
    ∧ toHumanReadable 1025 1024 = Except.ok "1.0KiB"
    ∧ toHumanReadable 999 1000 = Except.ok "999B" :=
  ⟨rfl, rfl, rfl, rfl⟩

/-- C3 (code bug exhibit): constructing a process dispatcher for an
entity that no longer exists registers the id first and only then fails
its existence check, so the construction fails (the error propagates to
the caller) while the Entity Registry — contrary to the claim — retains
the id: from an empty registry, a constructor call for the vanished
pid 42 leaves 42 registered. -/
theorem dispatcher_init_gone_registers_and_fails :
    processDispatcherInit ∅ 42 false = (insert 42 ∅, false)
    ∧ 42 ∈ (processDispatcherInit ∅ 42 false).1
    ∧ (processDispatcherInit ∅ 42 false).1 ≠ ∅ :=
  ⟨rfl, by decide, by decide⟩

/-- C8 counterexample: the process frontend cache's CPU% entry is the
bare `str` of the poller's cached value — for the cached value 3.5 the
stored string is `"3.5"`, whose last character is `'5'`, not a trailing
`'%'`, and which is not formatted to two decimal places. -/
theorem process_cpu_percent_counterexample :
    (processUpdateCache (processSetupCache 1 "bash" 0) (Frac.ofInt 1)
        ((Frac.ofInt 7).div (Frac.ofInt 2)) 1000 (3, 1) "S").cache.cpuPercent = "3.5"
    ∧ ("3.5").data.getLast? = some '5'
    ∧ '5' ≠ '%' :=
  ⟨rfl, by decide, by decide⟩

theorem Frac.nonneg_num {q : Frac} (h : Frac.le frac0 q) : 0 ≤ q.num := by
  unfold Frac.le frac0 Frac.ofInt at h
  simpa using h

theorem pct_entry_shape (avail total : ℕ) :
    (if total ≠ 0 then
        fmtRound2 (((Frac.ofInt avail).div (Frac.ofInt total)).mul (Frac.ofInt 100)) ++ "%"
      else "0.00%") = "0.00%"
    ∨ ∃ n : ℕ,
        (if total ≠ 0 then
            fmtRound2 (((Frac.ofInt avail).div (Frac.ofInt total)).mul (Frac.ofInt 100)) ++ "%"
          else "0.00%") = centsToStr n ++ "%" := by
  by_cases ht : total = 0
  · left
    rw [if_neg (not_not_intro ht)]
  · right
    refine ⟨(roundHalfEvenCents
      (((Frac.ofInt avail).div (Frac.ofInt total)).mul (Frac.ofInt 100))).toNat, ?_⟩
    rw [if_pos ht]
    unfold fmtRound2
    rw [Int.toNat_of_nonneg (roundHalfEvenCents_nonneg _ (pct_num_nonneg avail total))]

/-- C8 amended: the three system-cache percentage entries (system CPU%,
VM_PERCENT, SWAP_PERCENT) are rounded to two decimal places and given a
trailing `%` — the stored mantissa is an exact number of hundredths,
rendered by `str` with trailing zeros stripped rather than padded to two
digits — while the process cache's CPU% entry is the bare `str` of the
poller's cached value, with no rounding and no `%` suffix. -/
theorem percent_formatting_amended (c : SysCache) (cpuPercents : List Frac)
    (memInfo : ℕ × ℕ × ℕ × ℕ) (swapInfo : ℕ × ℕ) (s : ProcDispatchCache)
    (reading cpuPct : Frac) (rm : ℕ) (tc : ℕ × ℕ) (st : String) :
    (Frac.le frac0 (fracMean cpuPercents) →
      ∃ n : ℕ, (systemUpdateCache c cpuPercents memInfo swapInfo).cpuPercent
        = centsToStr n ++ "%")
    ∧ ((systemUpdateCache c cpuPercents memInfo swapInfo).vmPercent = "0.00%"
        ∨ ∃ n : ℕ, (systemUpdateCache c cpuPercents memInfo swapInfo).vmPercent
            = centsToStr n ++ "%")
    ∧ ((systemUpdateCache c cpuPercents memInfo swapInfo).swapPercent = "0.00%"
        ∨ ∃ n : ℕ, (systemUpdateCache c cpuPercents memInfo swapInfo).swapPercent
            = centsToStr n ++ "%")
    ∧ (processUpdateCache s reading cpuPct rm tc st).cache.cpuPercent = pyFloatStr cpuPct := by
  refine ⟨?_, pct_entry_shape memInfo.1 memInfo.2.1, pct_entry_shape swapInfo.1 swapInfo.2, rfl⟩
  intro h0
  refine ⟨(roundHalfEvenCents (fracMean cpuPercents)).toNat, ?_⟩
  show fmtRound2 (fracMean cpuPercents) ++ "%" = _
  unfold fmtRound2
  rw [Int.toNat_of_nonneg (roundHalfEvenCents_nonneg _ (Frac.nonneg_num h0))]

/-- Witness for `percent_formatting_amended`: with the single cached
per-core percentage 3, the mean is non-negative and the system CPU%
entry has the hundredths-plus-percent shape. -/
theorem percent_formatting_amended_witness :
    Frac.le frac0 (fracMean [Frac.ofInt 3])
    ∧ ∃ n : ℕ, (systemUpdateCache systemSetupCache [Frac.ofInt 3] (1, 2, 3, 4) (5, 6)).cpuPercent
        = centsToStr n ++ "%" :=
  ⟨by decide,
    (percent_formatting_amended systemSetupCache [Frac.ofInt 3] (1, 2, 3, 4) (5, 6)
      (processSetupCache 1 "bash" 0) frac0 frac0 0 (0, 0) "S").1 (by decide)⟩

theorem regInv_step (s : RegistryState) (hs : regInv s) (e : DispatchEvent) :
    regInv (dispatchStep s e) := by
  cases e with
  | spawnChild pid alive =>
      simp only [dispatchStep]
      by_cases hmem : pid ∈ s.registered
      · rw [if_pos hmem]
        exact hs
      · rw [if_neg hmem]
        have hzero : s.liveCount pid = 0 := by
          by_contra hne
          exact hmem ((hs pid).2 (by omega))
        cases alive with
        | false =>
            intro p
            simp only [processDispatcherInit, if_neg Bool.false_ne_true, Bool.false_eq_true,
              if_false]
            exact ⟨(hs p).1, fun h1 => Finset.mem_insert_of_mem ((hs p).2 h1)⟩
        | true =>
            intro p
            simp only [processDispatcherInit, if_pos rfl, if_true]
            by_cases hp : p = pid
            · subst hp
              constructor
              · simp [hzero]
              · intro _
                exact Finset.mem_insert_self p _
            · constructor
              · simpa [hp] using (hs p).1
              · intro h1
                rw [if_neg hp] at h1
                exact Finset.mem_insert_of_mem ((hs p).2 h1)
  | terminate pid =>
      simp only [dispatchStep]
      by_cases hz : s.liveCount pid = 0
      · rw [if_pos hz]
        exact hs
      · rw [if_neg hz]
        intro p
        have hb := (hs p).1
        constructor
        · show (if p = pid then s.liveCount p - 1 else s.liveCount p) ≤ 1
          split <;> omega
        · intro h1
          have h1b : 1 ≤ (if p = pid then s.liveCount p - 1 else s.liveCount p) := h1
          by_cases hp : p = pid
          · subst hp
            rw [if_pos rfl] at h1b
            exact absurd h1b (by omega)
          · rw [if_neg hp] at h1b
            exact Finset.mem_erase_of_ne_of_mem hp ((hs p).2 h1b)

theorem regInv_foldl (events : List DispatchEvent) :
    ∀ s : RegistryState, regInv s → regInv (events.foldl dispatchStep s) := by
  induction events with
  | nil => exact fun s hs => hs
  | cons e es ih =>
      intro s hs
      exact ih (dispatchStep s e) (regInv_step s hs e)

theorem regInv_run (events : List DispatchEvent) : regInv (dispatchRun events) := by
  unfold dispatchRun
  refine regInv_foldl events _ ?_
  intro p
  refine ⟨Nat.zero_le 1, fun h => ?_⟩
  simp at h

/-- C1: over every sequence of spawn/exit events, at most one dispatcher
is ever live per entity id; a child id already present in the registry
is never spawned a second dispatcher (the registry and its live count
are unchanged by such an attempt); and when an entity's running
dispatcher terminates, its id does not remain registered. -/
theorem registry_at_most_one_dispatcher (events : List DispatchEvent) (p : ℕ) (alive : Bool) :
    (dispatchRun events).liveCount p ≤ 1
    ∧ (p ∈ (dispatchRun events).registered →
        (dispatchStep (dispatchRun events) (DispatchEvent.spawnChild p alive)).registered
            = (dispatchRun events).registered
        ∧ (dispatchStep (dispatchRun events) (DispatchEvent.spawnChild p alive)).liveCount p
            = (dispatchRun events).liveCount p)
    ∧ (1 ≤ (dispatchRun events).liveCount p →
        p ∉ (dispatchStep (dispatchRun events) (DispatchEvent.terminate p)).registered) := by
  have hinv := regInv_run events
  refine ⟨(hinv p).1, ?_, ?_⟩
  · intro hmem
    simp only [dispatchStep]
    rw [if_pos hmem]
    exact ⟨rfl, rfl⟩
  · intro hlc
    simp only [dispatchStep]
    rw [if_neg (show ¬(dispatchRun events).liveCount p = 0 by omega)]
    exact Finset.not_mem_erase p _

/-- Witness for `registry_at_most_one_dispatcher`: after spawning a
dispatcher for pid 5, the id is registered with one live dispatcher; a
second spawn attempt leaves the registry and live count unchanged, and
terminating removes the id. -/
theorem registry_at_most_one_dispatcher_witness :
    5 ∈ (dispatchRun [DispatchEvent.spawnChild 5 true]).registered
    ∧ 1 ≤ (dispatchRun [DispatchEvent.spawnChild 5 true]).liveCount 5
    ∧ (dispatchRun [DispatchEvent.spawnChild 5 true]).liveCount 5 ≤ 1
    ∧ (dispatchStep (dispatchRun [DispatchEvent.spawnChild 5 true])
        (DispatchEvent.spawnChild 5 false)).liveCount 5
        = (dispatchRun [DispatchEvent.spawnChild 5 true]).liveCount 5
    ∧ 5 ∉ (dispatchStep (dispatchRun [DispatchEvent.spawnChild 5 true])
        (DispatchEvent.terminate 5)).registered :=
  ⟨by decide, by decide,
    (registry_at_most_one_dispatcher [DispatchEvent.spawnChild 5 true] 5 false).1,
    ((registry_at_most_one_dispatcher [DispatchEvent.spawnChild 5 true] 5 false).2.1
      (by decide)).2,
    (registry_at_most_one_dispatcher [DispatchEvent.spawnChild 5 true] 5 false).2.2
      (by decide)⟩

/-- C4 (code bug exhibit): a child that vanishes between enumeration and
dispatcher construction unwinds the parent's scan.  With pid 1
registered and children 10 (vanished before attach) and 11 (alive), the
scan raises out of `_detect_process` before visiting 11; `run_body`
breaks and the parent tears down: no child is spawned, the second cycle
(reading 9) is never consumed — the `.cputime` file holds only the first
reading 5 — the parent removes itself, and the vanished child's
registration leaks. -/
theorem detect_child_gone_unwinds_scan :
    detectProcess {1} [(10, false), (11, true)] = Except.error (insert 10 {1}, [])
    ∧ (runBodyGo 1 ⟨frac0, {1}, [], none⟩
        [⟨Frac.ofInt 5, [(10, false), (11, true)], false⟩,
          ⟨Frac.ofInt 9, [(11, true)], false⟩]).spawned = []
    ∧ (runBodyGo 1 ⟨frac0, {1}, [], none⟩
        [⟨Frac.ofInt 5, [(10, false), (11, true)], false⟩,
          ⟨Frac.ofInt 9, [(11, true)], false⟩]).cputimeFile = some (Frac.ofInt 5)
    ∧ 1 ∉ (runBodyGo 1 ⟨frac0, {1}, [], none⟩
        [⟨Frac.ofInt 5, [(10, false), (11, true)], false⟩,
          ⟨Frac.ofInt 9, [(11, true)], false⟩]).registered
    ∧ 10 ∈ (runBodyGo 1 ⟨frac0, {1}, [], none⟩
        [⟨Frac.ofInt 5, [(10, false), (11, true)], false⟩,
          ⟨Frac.ofInt 9, [(11, true)], false⟩]).registered :=
  ⟨rfl, rfl, rfl, by decide, by decide⟩

theorem detectProcessGo_all_alive (children : List (ℕ × Bool))
    (hall : ∀ c ∈ children, c.2 = true) :
    ∀ reg spawned, ∃ p, detectProcessGo reg spawned children = Except.ok p := by
  induction children with
  | nil => exact fun reg spawned => ⟨(reg, spawned), rfl⟩
  | cons c rest ih =>
      intro reg spawned
      have hrest : ∀ c2 ∈ rest, c2.2 = true :=
        fun c2 hc2 => hall c2 (List.mem_cons_of_mem c hc2)
      have hc : c.2 = true := hall c (List.mem_cons_self c rest)
      obtain ⟨cpid, alive⟩ := c
      simp only at hc
      subst hc
      by_cases hmem : cpid ∈ reg
      · have hred : detectProcessGo reg spawned ((cpid, true) :: rest)
            = detectProcessGo reg spawned rest := by
          simp only [detectProcessGo]
          rw [if_pos hmem]
        rw [hred]
        exact ih hrest reg spawned
      · have hred : detectProcessGo reg spawned ((cpid, true) :: rest)
            = detectProcessGo (insert cpid reg) (spawned ++ [cpid]) rest := by
          simp only [detectProcessGo]
          rw [if_neg hmem]
          rfl
        rw [hred]
        exact ih hrest (insert cpid reg) (spawned ++ [cpid])

theorem runBodyGo_gone_aux (pre : List PollCycle) :
    ∀ (tracePid : ℕ) (s0 : DispatchPState) (r : Frac) (ch : List (ℕ × Bool))
      (post : List PollCycle),
      (∀ cy ∈ pre, cy.parentGone = false ∧ ∀ c ∈ cy.children, c.2 = true) →
      (runBodyGo tracePid s0 (pre ++ (⟨r, ch, true⟩ : PollCycle) :: post)).cputimeFile
          = some (cachedCpuTimeFrom s0.cachedLastCpuTime (pre.map PollCycle.reading ++ [r]))
      ∧ tracePid ∉
          (runBodyGo tracePid s0 (pre ++ (⟨r, ch, true⟩ : PollCycle) :: post)).registered := by
  induction pre with
  | nil =>
      intro tracePid s0 r ch post _
      exact ⟨rfl, Finset.not_mem_erase tracePid _⟩
  | cons cy pre ih =>
      intro tracePid s0 r ch post hpre
      have hcy := hpre cy (List.mem_cons_self cy pre)
      have hrest : ∀ c ∈ pre, c.parentGone = false ∧ ∀ c2 ∈ c.children, c2.2 = true :=
        fun c hc => hpre c (List.mem_cons_of_mem cy hc)
      obtain ⟨p2, hp2⟩ := detectProcessGo_all_alive cy.children hcy.2 s0.registered s0.spawned
      have hstep : runBodyGo tracePid s0 ((cy :: pre) ++ (⟨r, ch, true⟩ : PollCycle) :: post)
          = runBodyGo tracePid
              ⟨updateCpuTimeCache s0.cachedLastCpuTime cy.reading, p2.1, p2.2, s0.cputimeFile⟩
              (pre ++ (⟨r, ch, true⟩ : PollCycle) :: post) := by
        simp only [List.cons_append, runBodyGo, detectStep, hcy.1, Bool.false_eq_true, if_false]
        rw [hp2]
        rfl
      rw [hstep]
      exact ih tracePid
        ⟨updateCpuTimeCache s0.cachedLastCpuTime cy.reading, p2.1, p2.2, s0.cputimeFile⟩
        r ch post hrest

/-- C7: when child enumeration raises the entity-gone condition in some
cycle of `run_body` (after any number of uneventful cycles), the
dispatcher leaves the loop and still runs the full teardown: the
`.cputime` file receives exactly the cumulative CPU time accumulated
over the consumed readings — including the final cycle’s, since
`_update_cache` runs before `_detect_process` — and the dispatcher’s id
is removed from the registry.  The same teardown runs when the loop ends
through the termination flag (the empty cycle list). -/
theorem run_body_gone_teardown (tracePid : ℕ) (s0 : DispatchPState)
    (pre : List PollCycle) (r : Frac) (ch : List (ℕ × Bool)) (post : List PollCycle)
    (hpre : ∀ cy ∈ pre, cy.parentGone = false ∧ ∀ c ∈ cy.children, c.2 = true) :
    (runBodyGo tracePid s0 (pre ++ (⟨r, ch, true⟩ : PollCycle) :: post)).cputimeFile
        = some (cachedCpuTimeFrom s0.cachedLastCpuTime (pre.map PollCycle.reading ++ [r]))
    ∧ tracePid ∉ (runBodyGo tracePid s0 (pre ++ (⟨r, ch, true⟩ : PollCycle) :: post)).registered
    ∧ (runBodyGo tracePid s0 []).cputimeFile = some s0.cachedLastCpuTime
    ∧ tracePid ∉ (runBodyGo tracePid s0 []).registered :=
  ⟨(runBodyGo_gone_aux pre tracePid s0 r ch post hpre).1,
    (runBodyGo_gone_aux pre tracePid s0 r ch post hpre).2,
    rfl, Finset.not_mem_erase tracePid _⟩

/-- Witness for `run_body_gone_teardown`: one uneventful cycle (reading
2, live child 7) followed by a cycle whose enumeration finds the entity
gone (reading 4): the teardown writes the accumulated value and removes
pid 1 from the registry. -/
theorem run_body_gone_teardown_witness :
    (∀ cy ∈ [(⟨Frac.ofInt 2, [(7, true)], false⟩ : PollCycle)],
        cy.parentGone = false ∧ ∀ c ∈ cy.children, c.2 = true)
    ∧ (runBodyGo 1 ⟨frac0, {1}, [], none⟩
        ([(⟨Frac.ofInt 2, [(7, true)], false⟩ : PollCycle)]
          ++ (⟨Frac.ofInt 4, [], true⟩ : PollCycle) :: [])).cputimeFile
        = some (cachedCpuTimeFrom frac0
            ([(⟨Frac.ofInt 2, [(7, true)], false⟩ : PollCycle)].map PollCycle.reading
              ++ [Frac.ofInt 4]))
    ∧ 1 ∉ (runBodyGo 1 ⟨frac0, {1}, [], none⟩
        ([(⟨Frac.ofInt 2, [(7, true)], false⟩ : PollCycle)]
          ++ (⟨Frac.ofInt 4, [], true⟩ : PollCycle) :: [])).registered :=
  ⟨by decide,
    (run_body_gone_teardown 1 ⟨frac0, {1}, [], none⟩
      [(⟨Frac.ofInt 2, [(7, true)], false⟩ : PollCycle)] (Frac.ofInt 4) [] []
      (by decide)).1,
    (run_body_gone_teardown 1 ⟨frac0, {1}, [], none⟩
      [(⟨Frac.ofInt 2, [(7, true)], false⟩ : PollCycle)] (Frac.ofInt 4) [] []
      (by decide)).2.1⟩

theorem runIndividualReport_pid (p : ℕ) (e : ℤ) : (runIndividualReport p e).pid = p := by
  unfold runIndividualReport
  split <;> rfl

/-- C9: `make_all_report` submits exactly one renderer job per entity id
of the mutated set — the system sentinel 0 included — and joins them
all: there is one completed result per id (count 1 for members, 0 for
non-members, and as many results as ids), and each job retains its log
file and logs an error exactly when its renderer's exit code is
non-zero, independently of every other job. -/
theorem make_all_report_jobs (allPids : Finset ℕ) (exitCodes : ℕ → ℤ) :
    (∀ p, ((makeAllReport allPids exitCodes).2.map ReportJobResult.pid).count p
        = if p ∈ insert 0 allPids then 1 else 0)
    ∧ Multiset.card (makeAllReport allPids exitCodes).2 = (insert 0 allPids).card
    ∧ (∀ res ∈ (makeAllReport allPids exitCodes).2,
        (res.logRetained = true ↔ exitCodes res.pid ≠ 0)
        ∧ (res.errorLogged = true ↔ exitCodes res.pid ≠ 0)) := by
  have hmap : (makeAllReport allPids exitCodes).2.map ReportJobResult.pid
      = (insert 0 allPids).val := by
    show (((insert 0 allPids).val.map fun p => runIndividualReport p (exitCodes p)).map
        ReportJobResult.pid) = (insert 0 allPids).val
    rw [Multiset.map_map]
    have hcongr : (insert 0 allPids).val.map (ReportJobResult.pid ∘
          fun p => runIndividualReport p (exitCodes p))
        = (insert 0 allPids).val.map (fun p => p) :=
      Multiset.map_congr rfl (fun p _ => runIndividualReport_pid p (exitCodes p))
    rw [hcongr, Multiset.map_id']
  refine ⟨?_, ?_, ?_⟩
  · intro p
    rw [hmap]
    by_cases hp : p ∈ insert 0 allPids
    · rw [if_pos hp]
      exact Multiset.count_eq_one_of_mem (insert 0 allPids).nodup (Finset.mem_def.mp hp)
    · rw [if_neg hp]
      exact Multiset.count_eq_zero_of_not_mem (fun hcon => hp (Finset.mem_def.mpr hcon))
  · show Multiset.card ((insert 0 allPids).val.map fun p => runIndividualReport p (exitCodes p))
        = (insert 0 allPids).card
    rw [Multiset.card_map]
    rfl
  · intro res hres
    obtain ⟨p, hp, rfl⟩ := Multiset.mem_map.mp hres
    rw [runIndividualReport_pid]
    unfold runIndividualReport
    split
    · rename_i he
      simp [he]
    · rename_i he
      simp [he]

/-- Witness for `make_all_report_jobs` at the pid set containing 3 with
every renderer failing with exit code 1: pid 3's job appears exactly
once, and its log file is retained. -/
theorem make_all_report_jobs_witness :
    ((makeAllReport {3} (fun _ => 1)).2.map ReportJobResult.pid).count 3
        = (if 3 ∈ insert 0 ({3} : Finset ℕ) then 1 else 0)
    ∧ (⟨3, 1, true, true⟩ : ReportJobResult) ∈ (makeAllReport {3} (fun _ => 1)).2
    ∧ ((⟨3, 1, true, true⟩ : ReportJobResult).logRetained = true ↔ (1 : ℤ) ≠ 0) :=
  ⟨(make_all_report_jobs {3} (fun _ => 1)).1 3,
    by decide,
    ((make_all_report_jobs {3} (fun _ => 1)).2.2 ⟨3, 1, true, true⟩ (by decide)).1⟩

/-- C10: `make_all_report` mutates its `all_pids` set argument in place:
after the call the set contains exactly its previous elements plus the
system sentinel id 0 — nothing else is added and nothing is removed. -/
theorem make_all_report_mutates_all_pids (allPids : Finset ℕ) (exitCodes : ℕ → ℤ) (x : ℕ) :
    x ∈ (makeAllReport allPids exitCodes).1 ↔ x ∈ allPids ∨ x = 0 := by
  show x ∈ insert 0 allPids ↔ x ∈ allPids ∨ x = 0
  rw [Finset.mem_insert]
  tauto
